import Mathlib

/-!
# Inventory dashboard: the product store, the derivation pipeline and the form

A shallow embedding of `src/app.jsx`.

* The module-level counter `nextId` and the React state `products` are one explicit
  `Store`; the startup effect is `load`, the save callback is `saveProduct`.
* `filtered`, `pageCount` and `visible` are the pure derivations of the render body.
* `validate` and `submit` are the two functions of `ProductForm`; the call of the
  `onSave` callback is the optional record returned by `submit`.

Modelling decisions.

* Ids are JavaScript numbers holding integers; they are `Int` here, and an absent
  `id` key (`undefined`) is `none`. The two additions made on ids, `max + 1` and
  `nextId++`, are double additions: the exact sum is rounded to the nearest
  double, ties to even, by `toDouble`. The sum is exact up to `2 ^ 53` and is
  rounded beyond. `Math.max` and `p.id || 0` return one of their arguments.
* Prices and stocks are JavaScript numbers. Their type `ν` is left abstract, and
  the built-ins whose full definition lives in the language standard
  (`toLowerCase`, `trim`, `Number`, `isNaN`) are the fields of `Builtins ν`. Every
  general theorem is quantified over `Builtins ν`, so it holds for the real ones.
  `ascii` is one concrete choice, used to evaluate the code on concrete inputs.
* A state updater passed to `setProducts` runs once, in the order of the calls.
-/

set_option autoImplicit false

namespace App

/-! ## Data model -/

/-- A product record as held in the store, and also the record handed to
`saveProduct`: the six keys of `app.jsx`, `id` being optional. -/
structure Product (ν : Type) where
  id : Option Int
  name : String
  price : ν
  category : String
  stock : ν
  description : String
deriving DecidableEq

/-- The language built-ins called by `app.jsx`. `Number` is the conversion of a
string; on a value that is already a number the conversion is the identity, see
`toNumber`. `zero` is the literal `0`. -/
structure Builtins (ν : Type) where
  toLowerCase : String → String
  trim : String → String
  Number : String → ν
  isNaN : ν → Bool
  zero : ν

/-- Truthiness of an `id` as tested by `if (f.id)`, `f.id ? .. : ..` and
`p.id || 0`: `undefined` and `0` are falsy, every other integer is truthy. -/
def truthy : Option Int → Bool
  | some i => i != 0
  | none => false

/-- The expression `p.id || 0`. -/
def idOrZero (id : Option Int) : Int :=
  match id with
  | some i => if truthy (some i) then i else 0
  | none => 0

/-- The object spread `{ ...x, ...f }` for a record `f` that owns all six keys, as
every record built by `submit` does: each key of `x` is overwritten by `f`. -/
def spread {ν : Type} (_x f : Product ν) : Product ν :=
  { id := f.id, name := f.name, price := f.price, category := f.category,
    stock := f.stock, description := f.description }

/-! ## Double arithmetic on integers -/

/-- The gap between neighbouring doubles at magnitude `a`: `1` below `2 ^ 53`, and
doubled each time the magnitude doubles. The first argument bounds the number of
halvings and is always given as `a` itself. -/
def ulp : Nat → Nat → Nat
  | 0, _ => 1
  | k + 1, a => if a < 2 ^ 53 then 1 else 2 * ulp k (a / 2)

/-- The double nearest to the integer `n`, ties going to the even significand: the
value a double operation returns when its exact result is `n`. Magnitudes beyond
the largest finite double are not reached by the sums of this file. -/
def toDouble (n : Int) : Int :=
  let a := n.natAbs
  let q := ulp a a
  let lo := a / q * q
  let r := a % q
  let m := if 2 * r < q then lo else if q < 2 * r then lo + q
    else if (a / q) % 2 = 0 then lo else lo + q
  if n < 0 then -(m : Int) else (m : Int)

/-! ## Data store -/

/-- The list held by `useState([])` together with the module-level `nextId`. -/
structure Store (ν : Type) where
  products : List (Product ν)
  nextId : Int

/-- State at start: `useState([])` and `let nextId = 1000`. -/
def Store.init {ν : Type} : Store ν :=
  { products := [], nextId := 1000 }

/-- The reducer of the startup effect:
`data.reduce((m, p) => Math.max(m, p.id || 0), 0)`. -/
def maxId {ν : Type} (data : List (Product ν)) : Int :=
  data.foldl (fun m p => max m (idOrZero p.id)) 0

/-- The `then` callback of the startup effect: `setProducts(data)` and
`nextId = max + 1`. -/
def load {ν : Type} (_s : Store ν) (data : List (Product ν)) : Store ν :=
  { products := data, nextId := toDouble (maxId data + 1) }

/-- The function `saveProduct(f)`, restricted to the store (it also closes the
modal). The `else` branch reads `nextId` for the new record and then increments it. -/
def saveProduct {ν : Type} [DecidableEq ν] (s : Store ν) (f : Product ν) : Store ν :=
  if truthy f.id then
    { s with products := s.products.map (fun x => if x.id = f.id then spread x f else x) }
  else
    { products := { f with id := some s.nextId } :: s.products,
      nextId := toDouble (s.nextId + 1) }

/-- One step of a session on the store. -/
inductive Op (ν : Type) where
  | load (data : List (Product ν))
  | save (f : Product ν)

/-- Effect of one operation. -/
def Op.apply {ν : Type} [DecidableEq ν] (s : Store ν) : Op ν → Store ν
  | Op.load data => App.load s data
  | Op.save f => saveProduct s f

/-- Effect of a sequence of operations, first to last. -/
def run {ν : Type} [DecidableEq ν] (s : Store ν) (ops : List (Op ν)) : Store ν :=
  ops.foldl Op.apply s

/-- The ids present in a list, in list order; records without an id contribute
nothing. -/
def ids {ν : Type} (l : List (Product ν)) : List Int :=
  l.filterMap (fun p => p.id)

/-! ## Derivation pipeline -/

/-- The constant `perPage`. -/
def perPage : Nat := 8

/-- The method `s.includes(q)`: `q` occurs in `s` starting at some position. -/
def includes (s q : String) : Bool :=
  s.data.tails.any (fun t => q.data.isPrefixOf t)

/-- The memoised value `filtered`, as a function of `products` and `debounced`.
`!q` holds exactly for the empty string. -/
def filtered {ν : Type} (js : Builtins ν) (products : List (Product ν))
    (debounced : String) : List (Product ν) :=
  let q := js.toLowerCase debounced
  if q = "" then products
  else products.filter (fun p => includes (js.toLowerCase p.name) q)

/-- The value `pageCount = Math.ceil(filtered.length / perPage)`. The quotient of
a length by 8 is exact in binary floating point, so it is taken in `ℚ`. -/
def pageCount {ν : Type} (filtered : List (Product ν)) : Int :=
  ⌈((filtered.length : ℚ) / (perPage : ℚ))⌉

/-- The relative index of `Array.prototype.slice`: a negative argument counts from
the end, and the result is clamped to `[0, len]`. -/
def relIndex (len : Nat) (k : Int) : Nat :=
  if k < 0 then (len + k).toNat else min k.toNat len

/-- The method `xs.slice(start, stop)`. -/
def slice {α : Type} (xs : List α) (start stop : Int) : List α :=
  let k := relIndex xs.length start
  let final := relIndex xs.length stop
  (xs.drop k).take (final - k)

/-- The value `visible = filtered.slice((page - 1) * perPage, page * perPage)`. -/
def visible {ν : Type} (filtered : List (Product ν)) (page : Int) : List (Product ν) :=
  slice filtered ((page - 1) * perPage) (page * perPage)

/-! ## Form -/

/-- Value of the staged `price` or `stock` key: the number taken from the edited
product (or the literal `0`), or the string typed into the input. -/
inductive Input (ν : Type) where
  | num (n : ν)
  | str (s : String)
deriving DecidableEq

/-- The staged state `f` of `ProductForm`. -/
structure FormState (ν : Type) where
  id : Option Int
  name : String
  price : Input ν
  category : String
  stock : Input ν
  description : String
deriving DecidableEq

/-- The keys rendered by the form. -/
inductive Field where
  | name | price | category | stock | description
deriving DecidableEq

/-- Initial staged state, `useState({ id: product?.id, name: product?.name || "", .. })`;
`product` is `null` when the form is opened by the add button. -/
def ProductForm.initial {ν : Type} (js : Builtins ν) : Option (Product ν) → FormState ν
  | some p =>
    { id := p.id, name := p.name, price := Input.num p.price, category := p.category,
      stock := Input.num p.stock, description := p.description }
  | none =>
    { id := none, name := "", price := Input.str "", category := "",
      stock := Input.num js.zero, description := "" }

/-- The call `Number(v)` on a staged value. -/
def toNumber {ν : Type} (js : Builtins ν) : Input ν → ν
  | Input.num n => n
  | Input.str s => js.Number s

/-- The test `f.price === "" || isNaN(Number(f.price))`. -/
def priceInvalid {ν : Type} [DecidableEq ν] (js : Builtins ν) (price : Input ν) : Bool :=
  decide (price = Input.str "") || js.isNaN (toNumber js price)

/-- The function `validate()`: the error object as its list of entries, in
insertion order. -/
def validate {ν : Type} [DecidableEq ν] (js : Builtins ν) (f : FormState ν) :
    List (Field × String) :=
  let e : List (Field × String) := []
  let e := if js.trim f.name = "" then e ++ [(Field.name, "Required")] else e
  let e := if priceInvalid js f.price then e ++ [(Field.price, "Invalid")] else e
  let e := if js.trim f.category = "" then e ++ [(Field.category, "Required")] else e
  e

/-- Outcome of `submit`: the error object given to `setErr`, and the argument of
`onSave` when the callback is called. -/
structure Submitted (ν : Type) where
  err : List (Field × String)
  saved : Option (Product ν)

/-- The function `submit(e)`. -/
def submit {ν : Type} [DecidableEq ν] (js : Builtins ν) (f : FormState ν) : Submitted ν :=
  let eobj := validate js f
  { err := eobj
    saved :=
      if eobj.length = 0 then
        some { id := f.id, name := f.name, price := toNumber js f.price,
               category := f.category, stock := toNumber js f.stock,
               description := f.description }
      else none }

/-! ## The session of the page -/

/-- The `onChange` handler of an input, `setF({ ...f, [key]: e.target.value })`:
the key is one of the five rendered keys, the value is the text of the input. -/
def setField {ν : Type} (f : FormState ν) (key : Field) (value : String) : FormState ν :=
  match key with
  | Field.name => { f with name := value }
  | Field.price => { f with price := Input.str value }
  | Field.category => { f with category := value }
  | Field.stock => { f with stock := Input.str value }
  | Field.description => { f with description := value }

/-- The state of the page that decides which records reach `saveProduct`: the
store, whether the `then` callback of the startup effect has run, and the staged
state of the mounted `ProductForm` (`none` while `formOpen` is false). -/
structure Page (ν : Type) where
  store : Store ν
  fetched : Bool
  form : Option (FormState ν)

/-- The page at start: nothing fetched, the modal closed. -/
def Page.init {ν : Type} : Page ν :=
  { store := Store.init, fetched := false, form := none }

/-- The handlers of `app.jsx` that touch the store or the form. -/
inductive Event (ν : Type) where
  | fetched (data : List (Product ν))
  | add
  | edit (k : Nat)
  | change (key : Field) (value : String)
  | submit
  | close

/-- One handler run.
* `fetched`: the `then` callback of the effect with empty dependency list; it runs once.
* `add`, `edit k`: `setEditItem` and `setFormOpen(true)`; `edit k` is the Edit
  button of the `k`-th stored product. `ProductForm` reads `product` only in the
  initial value of `useState`, so a form that is already mounted keeps its state.
* `change`: the `onChange` of an input.
* `submit`: the function `submit`; on success `onSave` is `saveProduct`, which
  also closes the modal.
* `close`: the Cancel button. -/
def Page.step {ν : Type} [DecidableEq ν] (js : Builtins ν) (s : Page ν) : Event ν → Page ν
  | Event.fetched data =>
    if s.fetched then s else { s with store := load s.store data, fetched := true }
  | Event.add =>
    match s.form with
    | some _ => s
    | none => { s with form := some (ProductForm.initial js none) }
  | Event.edit k =>
    match s.form, s.store.products[k]? with
    | none, some p => { s with form := some (ProductForm.initial js (some p)) }
    | _, _ => s
  | Event.change key value =>
    { s with form := s.form.map (fun f => setField f key value) }
  | Event.submit =>
    match s.form with
    | none => s
    | some f =>
      match (submit js f).saved with
      | some r => { s with store := saveProduct s.store r, form := none }
      | none => s
  | Event.close => { s with form := none }

/-- The page after a sequence of handler runs, first to last. -/
def Page.run {ν : Type} [DecidableEq ν] (js : Builtins ν) (s : Page ν)
    (events : List (Event ν)) : Page ν :=
  events.foldl (Page.step js) s

/-! ## A concrete choice of built-ins -/

/-- The white space removed by `trim` that occurs in the examples below. -/
def isBlank (c : Char) : Bool :=
  c = ' ' || c = '\t' || c = '\n' || c = '\r'

/-- The value of a text made of decimal digits, `none` when the text is empty or
holds another character. -/
def digits (cs : List Char) : Option Nat :=
  if cs = [] then none
  else cs.foldl
    (fun acc c => acc.bind (fun n => if c.isDigit then some (10 * n + (c.toNat - 48)) else none))
    (some 0)

/-- One choice of built-ins, used only to evaluate the code on the concrete strings
of this file, on which it agrees with JavaScript: ASCII letters and blanks, the
decimal integers, and texts without any digit. Numbers are `Option Int`, where
`none` stands for `NaN`. -/
def ascii : Builtins (Option Int) where
  toLowerCase := fun s => String.mk (s.data.map Char.toLower)
  trim := fun s => String.mk ((s.data.dropWhile isBlank).reverse.dropWhile isBlank).reverse
  Number := fun s =>
    match ((s.data.dropWhile isBlank).reverse.dropWhile isBlank).reverse with
    | [] => some 0
    | '-' :: r => (digits r).map (fun n => -(n : Int))
    | t => (digits t).map (fun n => (n : Int))
  isNaN := fun n => n.isNone
  zero := some 0

/-! ## Records and sessions used to evaluate the code -/

/-- A loaded product with id `1`. -/
def redShirt : Product (Option Int) :=
  { id := some 1, name := "Red Shirt", price := some 10, category := "Clothing",
    stock := some 5, description := "" }

/-- A loaded product whose id is negative. -/
def negFive : Product (Option Int) :=
  { id := some (-5), name := "Scarf", price := some 7, category := "Clothing",
    stock := some 9, description := "" }

/-- A loaded product whose id is `0`. -/
def capZero : Product (Option Int) :=
  { id := some 0, name := "Cap", price := some 4, category := "Clothing",
    stock := some 2, description := "" }

/-- The record built by the form in create mode: no `id`. -/
def draft : Product (Option Int) :=
  { id := none, name := "Mug", price := some 3, category := "Kitchen",
    stock := some 1, description := "" }

/-- The staged state after `capZero` is opened through its Edit action and its
name is retyped as `Hat`. -/
def capEdit : FormState (Option Int) :=
  { ProductForm.initial ascii (some capZero) with name := "Hat" }

/-- The record `submit` hands to `saveProduct` for `capEdit`: `capZero` renamed. -/
def hatZero : Product (Option Int) :=
  { capZero with name := "Hat" }

/-- An edit of `redShirt` that keeps its id `1`. -/
def blueShirt : Product (Option Int) :=
  { redShirt with name := "Blue Shirt" }

/-- A loaded product whose id is `2 ^ 53 - 1`, the largest odd double. -/
def bigId : Product (Option Int) :=
  { id := some 9007199254740991, name := "Lamp", price := some 20, category := "Home",
    stock := some 3, description := "" }

/-- A loaded product whose id is `2 ^ 53`. -/
def hugeId : Product (Option Int) :=
  { id := some 9007199254740992, name := "Desk", price := some 90, category := "Home",
    stock := some 1, description := "" }

/-- A session that reaches the end of the exact range: the load of one product
with id `2 ^ 53`, then one creation. -/
def overflow : List (Op (Option Int)) :=
  [Op.load [hugeId], Op.save draft]

/-- Handler runs in which a record with an id that is no longer stored reaches
`saveProduct`: a product is added before the fetch resolves (id `1000`), its Edit
form is opened, the fetch replaces the list, and the form is submitted. -/
def staleEdit : List (Event (Option Int)) :=
  [Event.add, Event.change Field.name "Mug", Event.change Field.price "3",
   Event.change Field.category "Kitchen", Event.submit, Event.edit 0,
   Event.fetched [redShirt]]

/-- The staged state of the stale edit form: the product added with id `1000`. -/
def staleForm : FormState (Option Int) :=
  { id := some 1000, name := "Mug", price := Input.num (some 3), category := "Kitchen",
    stock := Input.num (some 0), description := "" }

/-- The record the stale edit form hands to `saveProduct`. -/
def staleMug : Product (Option Int) :=
  { id := some 1000, name := "Mug", price := some 3, category := "Kitchen",
    stock := some 0, description := "" }

/-- First example of the specification: the name is empty. -/
def emptyName : FormState (Option Int) :=
  { id := none, name := "", price := Input.str "5", category := "Y",
    stock := Input.num (some 0), description := "" }

/-- Second example of the specification: the price is the text `abc`. -/
def badPrice : FormState (Option Int) :=
  { id := none, name := "X", price := Input.str "abc", category := "Y",
    stock := Input.num (some 0), description := "" }

/-- Third example of the specification: name `X`, price `5`, category `Y`. -/
def validXY : FormState (Option Int) :=
  { id := none, name := "X", price := Input.str "5", category := "Y",
    stock := Input.num (some 0), description := "" }

/-- A session: the startup load, a creation, an edit, and a save of a record
whose id is `0`. -/
def session : List (Op (Option Int)) :=
  [Op.load [redShirt, negFive, capZero], Op.save draft, Op.save blueShirt, Op.save hatZero]

/-- Twenty filtered products. -/
def twenty : List (Product (Option Int)) :=
  List.replicate 20 redShirt

/-! ## The id formula in the words of the specification -/

/-- The value `max(ids in L, default 0)` as the specification words it: the largest
id present in `L`, and `0` when `L` holds no id at all. It is compared with the
reducer `maxId` of the source. -/
def specMaxId {ν : Type} (l : List (Product ν)) : Int :=
  match (ids l).max? with
  | some m => m
  | none => 0

/-! ## Invariant of the store -/

/-- The ids present are pairwise distinct and all lie below the counter, and the
counter can still take `n` exact increments. -/
def Inv {ν : Type} (s : Store ν) (n : Nat) : Prop :=
  (ids s.products).Nodup ∧ (∀ i ∈ ids s.products, i < s.nextId) ∧
    1 ≤ s.nextId ∧ s.nextId + n ≤ 2 ^ 53

/-- What the page keeps true of the ids: the counter is at least `1`; before the
fetch no stored id is `0`; and a staged id `0` is the id of a stored product. -/
def PageInv {ν : Type} (s : Page ν) : Prop :=
  1 ≤ s.store.nextId ∧
    (s.fetched = false → (0 : Int) ∉ ids s.store.products) ∧
    ∀ f, s.form = some f → f.id = some 0 → (0 : Int) ∈ ids s.store.products

/-! ## Theorems: double arithmetic -/

/-- Below `2 ^ 53` the gap between doubles is `1`. -/
theorem ulp_of_lt (k a : Nat) (h : a < 2 ^ 53) : ulp k a = 1 := by
  cases k with
  | zero => rfl
  | succ k => rw [ulp]; exact if_pos h

/-- The gap is positive and at most the magnitude. -/
theorem ulp_pos_le (k : Nat) : ∀ a : Nat, 0 < a → 0 < ulp k a ∧ ulp k a ≤ a := by
  induction k with
  | zero => intro a ha; exact ⟨Nat.one_pos, ha⟩
  | succ k ih =>
    intro a ha
    by_cases h : a < 2 ^ 53
    · simp only [ulp, h, if_true]; exact ⟨Nat.one_pos, ha⟩
    · simp only [ulp, h, if_false]
      have h2 : 0 < a / 2 := by
        have : 2 ^ 53 ≤ a := Nat.le_of_not_lt h
        have : (2 : Nat) ≤ a := le_trans (by norm_num) this
        exact Nat.div_pos this (by norm_num)
      obtain ⟨hp, hl⟩ := ih (a / 2) h2
      constructor
      · omega
      · have := Nat.mul_div_le a 2
        omega

/-- Integers of magnitude at most `2 ^ 53` are doubles: rounding leaves them. -/
theorem toDouble_exact (n : Int) (h1 : -(2 ^ 53) ≤ n) (h2 : n ≤ 2 ^ 53) :
    toDouble n = n := by
  by_cases h : n.natAbs < 2 ^ 53
  · unfold toDouble
    simp only [ulp_of_lt _ _ h, Nat.div_one, Nat.mul_one, Nat.mod_one, Nat.mul_zero,
      Nat.lt_one_iff, if_true, Nat.zero_lt_one]
    split <;> omega
  · have hn : n = 2 ^ 53 ∨ n = -(2 ^ 53) := by omega
    rcases hn with rfl | rfl <;> decide

/-- Rounding keeps a positive integer positive. -/
theorem toDouble_pos (n : Int) (h : 1 ≤ n) : 1 ≤ toDouble n := by
  have ha : 0 < n.natAbs := by omega
  obtain ⟨hq, hle⟩ := ulp_pos_le n.natAbs n.natAbs ha
  have hdiv : 1 ≤ n.natAbs / ulp n.natAbs n.natAbs := (Nat.one_le_div_iff hq).mpr hle
  have hlo : ulp n.natAbs n.natAbs ≤ n.natAbs / ulp n.natAbs n.natAbs * ulp n.natAbs n.natAbs :=
    Nat.le_mul_of_pos_left _ hdiv
  unfold toDouble
  simp only []
  have hneg : ¬ n < 0 := by omega
  rw [if_neg hneg]
  have : 1 ≤ (if 2 * (n.natAbs % ulp n.natAbs n.natAbs) < ulp n.natAbs n.natAbs then
        n.natAbs / ulp n.natAbs n.natAbs * ulp n.natAbs n.natAbs
      else if ulp n.natAbs n.natAbs < 2 * (n.natAbs % ulp n.natAbs n.natAbs) then
        n.natAbs / ulp n.natAbs n.natAbs * ulp n.natAbs n.natAbs + ulp n.natAbs n.natAbs
      else if n.natAbs / ulp n.natAbs n.natAbs % 2 = 0 then
        n.natAbs / ulp n.natAbs n.natAbs * ulp n.natAbs n.natAbs
      else n.natAbs / ulp n.natAbs n.natAbs * ulp n.natAbs n.natAbs + ulp n.natAbs n.natAbs) := by
    split_ifs <;> omega
  exact_mod_cast this

/-! ## Theorems: data store -/

/-- The value of `p.id || 0` is `0` or the id itself. -/
theorem idOrZero_nonneg_or (id : Option Int) :
    idOrZero id = 0 ∨ id = some (idOrZero id) := by
  cases id with
  | none => left; rfl
  | some i =>
    by_cases h : i = 0
    · left; simp [idOrZero, truthy, h]
    · right; simp [idOrZero, truthy, h]

/-- A record with an id puts that id in front of `ids`. -/
theorem ids_cons_some {ν : Type} (p : Product ν) (l : List (Product ν)) (i : Int)
    (h : p.id = some i) : ids (p :: l) = i :: ids l := by
  simp [ids, List.filterMap_cons, h]

/-- A record without an id adds nothing to `ids`. -/
theorem ids_cons_none {ν : Type} (p : Product ν) (l : List (Product ν))
    (h : p.id = none) : ids (p :: l) = ids l := by
  simp [ids, List.filterMap_cons, h]

/-- Membership in `ids`. -/
theorem mem_ids {ν : Type} (l : List (Product ν)) (i : Int) :
    i ∈ ids l ↔ ∃ p ∈ l, p.id = some i := by
  simp [ids, List.mem_filterMap]

/-- The reducer started at a non-negative `a` ends on an upper bound of `a` and of
every id, and its value is `a` itself or one of the ids. -/
theorem foldl_max_spec {ν : Type} (l : List (Product ν)) :
    ∀ a : Int, 0 ≤ a →
      let r := l.foldl (fun m p => max m (idOrZero p.id)) a
      a ≤ r ∧ (∀ i ∈ ids l, i ≤ r) ∧ (r = a ∨ r ∈ ids l) := by
  induction l with
  | nil => intro a _; simp [ids]
  | cons p l ih =>
    intro a ha
    have hstep : 0 ≤ max a (idOrZero p.id) := le_trans ha (le_max_left _ _)
    obtain ⟨h1, h2, h3⟩ := ih (max a (idOrZero p.id)) hstep
    simp only [List.foldl_cons]
    refine ⟨le_trans (le_max_left _ _) h1, ?_, ?_⟩
    · intro i hi
      rw [mem_ids] at hi
      obtain ⟨q, hq, hqi⟩ := hi
      rcases List.mem_cons.mp hq with rfl | hql
      · have : idOrZero q.id = i ∨ i = 0 := by
          rw [hqi]
          by_cases h : i = 0
          · right; exact h
          · left; simp [idOrZero, truthy, h]
        rcases this with h | h
        · exact le_trans (h ▸ le_max_right _ _) h1
        · rw [h]; exact le_trans hstep h1
      · exact h2 i ((mem_ids l i).mpr ⟨q, hql, hqi⟩)
    · rcases h3 with h | h
      · rcases max_choice a (idOrZero p.id) with hm | hm
        · left; rw [h, hm]
        · rcases idOrZero_nonneg_or p.id with h0 | hid
          · left; rw [h, h0]; exact max_eq_left ha
          · right
            rw [h, hm]
            exact (mem_ids _ _).mpr ⟨p, List.mem_cons_self _ _, hid⟩
      · right
        rw [mem_ids] at h ⊢
        obtain ⟨q, hq, hqi⟩ := h
        exact ⟨q, List.mem_cons_of_mem _ hq, hqi⟩

/-- The reducer of the startup effect computes the greatest element of `0` together
with the ids present. -/
theorem maxId_isGreatest {ν : Type} (l : List (Product ν)) :
    IsGreatest (insert 0 {i | i ∈ ids l}) (maxId l) := by
  obtain ⟨h1, h2, h3⟩ := foldl_max_spec l 0 le_rfl
  constructor
  · rcases h3 with h | h
    · left; exact h
    · right; exact h
  · rintro i (rfl | hi)
    · exact h1
    · exact h2 i hi

/-- The mapper of the update branch never changes an id. -/
theorem update_id {ν : Type} (f x : Product ν) :
    (if x.id = f.id then spread x f else x).id = x.id := by
  by_cases h : x.id = f.id
  · simp [h, spread]
  · simp [h]

/-- The update branch leaves the list of ids as it was. -/
theorem ids_map_update {ν : Type} (f : Product ν) (l : List (Product ν)) :
    ids (l.map (fun x => if x.id = f.id then spread x f else x)) = ids l := by
  induction l with
  | nil => rfl
  | cons x l ih =>
    have hx := update_id f x
    simp only [List.map_cons]
    rcases Option.eq_none_or_eq_some x.id with hid | ⟨i, hid⟩
    · rw [ids_cons_none _ _ (hx.trans hid), ids_cons_none _ _ hid, ih]
    · rw [ids_cons_some _ _ i (hx.trans hid), ids_cons_some _ _ i hid, ih]

/-- The reducer is never negative. -/
theorem maxId_nonneg {ν : Type} (l : List (Product ν)) : 0 ≤ maxId l :=
  (maxId_isGreatest l).2 (Or.inl rfl)

/-- A bound on every id present is a bound on the reducer. -/
theorem maxId_le {ν : Type} (l : List (Product ν)) (b : Int) (hb0 : 0 ≤ b)
    (hb : ∀ i ∈ ids l, i ≤ b) : maxId l ≤ b := by
  rcases (maxId_isGreatest l).1 with h | h
  · have h0 : maxId l = 0 := h
    omega
  · exact hb _ h

/-- The invariant holds at start, with room for `n` increments. -/
theorem Inv_init {ν : Type} (n : Nat) (h : 1000 + (n : Int) ≤ 2 ^ 53) :
    Inv (Store.init : Store ν) n := by
  refine ⟨by simp [Store.init, ids], by simp [Store.init, ids], ?_, ?_⟩
  · show (1 : Int) ≤ 1000
    norm_num
  · exact h

/-- A load of pairwise distinct ids that leave room for `n` increments establishes
the invariant. -/
theorem Inv_load {ν : Type} (s : Store ν) (L : List (Product ν)) (n : Nat)
    (h : (ids L).Nodup) (h0 : 1 + (n : Int) ≤ 2 ^ 53)
    (hb : ∀ i ∈ ids L, i + 1 + n ≤ 2 ^ 53) : Inv (load s L) n := by
  have hm0 := maxId_nonneg L
  have hm : maxId L + 1 + n ≤ 2 ^ 53 := by
    rcases (maxId_isGreatest L).1 with h | h
    · have e : maxId L = 0 := h
      omega
    · exact hb _ h
  have he : toDouble (maxId L + 1) = maxId L + 1 := toDouble_exact _ (by omega) (by omega)
  refine ⟨h, ?_, ?_, ?_⟩
  · intro i hi
    have := (maxId_isGreatest L).2 (Or.inr hi)
    show i < toDouble (maxId L + 1)
    omega
  · show 1 ≤ toDouble (maxId L + 1)
    omega
  · show toDouble (maxId L + 1) + n ≤ 2 ^ 53
    omega

/-- A call of `saveProduct` uses up at most one increment and preserves the
invariant, in both branches. -/
theorem Inv_saveProduct {ν : Type} [DecidableEq ν] (s : Store ν) (f : Product ν) (n : Nat)
    (h : Inv s (n + 1)) : Inv (saveProduct s f) n := by
  obtain ⟨hnd, hlt, h1, hb⟩ := h
  have hb2 : s.nextId + 1 + n ≤ 2 ^ 53 := by push_cast at hb; omega
  unfold saveProduct
  split
  · refine ⟨?_, ?_, h1, ?_⟩
    · show (ids (s.products.map _)).Nodup
      rw [ids_map_update]; exact hnd
    · intro i hi
      have hi2 : i ∈ ids (s.products.map (fun x => if x.id = f.id then spread x f else x)) := hi
      rw [ids_map_update] at hi2
      exact hlt i hi2
    · show s.nextId + n ≤ 2 ^ 53
      omega
  · have hc : ids ({ f with id := some s.nextId } :: s.products) = s.nextId :: ids s.products :=
      ids_cons_some _ _ _ rfl
    have he : toDouble (s.nextId + 1) = s.nextId + 1 := toDouble_exact _ (by omega) (by omega)
    refine ⟨?_, ?_, ?_, ?_⟩
    · show (ids ({ f with id := some s.nextId } :: s.products)).Nodup
      rw [hc, List.nodup_cons]
      exact ⟨fun hmem => lt_irrefl _ (hlt _ hmem), hnd⟩
    · intro i hi
      have hi2 : i ∈ ids ({ f with id := some s.nextId } :: s.products) := hi
      rw [hc, List.mem_cons] at hi2
      show i < toDouble (s.nextId + 1)
      rcases hi2 with rfl | hm
      · omega
      · have := hlt i hm; omega
    · show 1 ≤ toDouble (s.nextId + 1)
      omega
    · show toDouble (s.nextId + 1) + n ≤ 2 ^ 53
      omega

/-- The invariant is preserved along a session of at most `N` operations whose
loaded ids leave room for `N` increments. -/
theorem Inv_run {ν : Type} [DecidableEq ν] (N : Nat) (hN : 1 + (N : Int) ≤ 2 ^ 53)
    (ops : List (Op ν)) :
    ∀ s : Store ν, ops.length ≤ N → Inv s ops.length →
      (∀ L, Op.load L ∈ ops → (ids L).Nodup ∧ ∀ i ∈ ids L, i + N < 2 ^ 53) →
      Inv (run s ops) 0 := by
  induction ops with
  | nil => intro s _ hs _; exact hs
  | cons op ops ih =>
    intro s hlen hs hl
    have hlen2 : ops.length + 1 ≤ N := hlen
    show Inv (run (Op.apply s op) ops) 0
    apply ih
    · omega
    · cases op with
      | load L =>
        obtain ⟨hnd, hb⟩ := hl L (List.mem_cons_self _ _)
        refine Inv_load s L ops.length hnd (by omega) ?_
        intro i hi
        have := hb i hi
        omega
      | save f => exact Inv_saveProduct s f ops.length hs
    · intro L hL
      exact hl L (List.mem_cons_of_mem _ hL)

/-- C1 (amended). After `load` of any list `L` whose ids are at most `2 ^ 53 - 2`,
the first `saveProduct` of a record without id stores it in front of `L` with id
`maxId L + 1`, where `maxId L` is the greatest element of `0` together with the
ids present in `L` (so `0` takes part in the maximum and the new id is never
below `1`), and the second such call stores its record with an id one greater. -/
theorem load_then_create_ids {ν : Type} [DecidableEq ν] (s : Store ν)
    (L : List (Product ν)) (f g : Product ν) (hf : f.id = none) (hg : g.id = none)
    (hb : ∀ i ∈ ids L, i ≤ 2 ^ 53 - 2) :
    IsGreatest (insert 0 {i | i ∈ ids L}) (maxId L) ∧
      (saveProduct (load s L) f).products = { f with id := some (maxId L + 1) } :: L ∧
      (saveProduct (saveProduct (load s L) f) g).products =
        { g with id := some (maxId L + 1 + 1) } :: { f with id := some (maxId L + 1) } :: L := by
  have hm0 := maxId_nonneg L
  have hm := maxId_le L (2 ^ 53 - 2) (by norm_num) hb
  have e1 : toDouble (maxId L + 1) = maxId L + 1 := toDouble_exact _ (by omega) (by omega)
  have e2 : toDouble (maxId L + 1 + 1) = maxId L + 1 + 1 :=
    toDouble_exact _ (by omega) (by omega)
  refine ⟨maxId_isGreatest L, ?_, ?_⟩
  · simp [saveProduct, load, hf, truthy, e1]
  · simp [saveProduct, load, hf, hg, truthy, e1, e2]

/-- Witness of the amended C1 on a list whose only id is negative. -/
theorem load_then_create_ids_witness :
    (draft.id = none ∧ ∀ i ∈ ids [negFive], i ≤ 2 ^ 53 - 2) ∧
    (IsGreatest (insert 0 {i | i ∈ ids [negFive]}) (maxId [negFive]) ∧
      (saveProduct (load Store.init [negFive]) draft).products =
        { draft with id := some (maxId [negFive] + 1) } :: [negFive] ∧
      (saveProduct (saveProduct (load Store.init [negFive]) draft) draft).products =
        { draft with id := some (maxId [negFive] + 1 + 1) } ::
          { draft with id := some (maxId [negFive] + 1) } :: [negFive]) :=
  ⟨⟨rfl, by decide⟩, load_then_create_ids Store.init [negFive] draft draft rfl rfl (by decide)⟩

/-- Counterexample to C1. After the load of a list whose only id is `-5` the first
created record gets the id `1`, while the largest id in the list plus one is `-4`.
After the load of a list whose only id is `2 ^ 53 - 1` the first created record
gets the id `2 ^ 53` and so does the second, because `2 ^ 53 + 1` is not a double. -/
theorem load_then_create_id_counterexample :
    (saveProduct (load Store.init [negFive]) draft).products.map Product.id
        = [some 1, some (-5)] ∧
      specMaxId [negFive] + 1 = -4 ∧
      (saveProduct (load Store.init [negFive]) draft).products.head?
        ≠ some { draft with id := some (specMaxId [negFive] + 1) } ∧
      (saveProduct (saveProduct (load Store.init [bigId]) draft) draft).products.map Product.id
        = [some 9007199254740992, some 9007199254740992, some 9007199254740991] := by
  decide

/-- C2 (amended). From the initial state (empty list, `nextId = 1000`), after any
sequence of loads and `saveProduct` calls (creations and updates alike) in which
every loaded list has pairwise distinct ids, every loaded id increased by the
number of operations stays below `2 ^ 53`, and `1000` increased by the number of
operations is at most `2 ^ 53`, the ids in the list are pairwise distinct and each
is strictly below `nextId`. -/
theorem ids_unique_and_below_nextId {ν : Type} [DecidableEq ν] (ops : List (Op ν))
    (hlen : 1000 + (ops.length : Int) ≤ 2 ^ 53)
    (h : ∀ L, Op.load L ∈ ops → (ids L).Nodup ∧ ∀ i ∈ ids L, i + ops.length < 2 ^ 53) :
    (ids (run Store.init ops).products).Nodup ∧
      ∀ i ∈ ids (run Store.init ops).products, i < (run Store.init ops).nextId := by
  have hI := Inv_run ops.length (by omega) ops Store.init le_rfl (Inv_init ops.length hlen) h
  exact ⟨hI.1, hI.2.1⟩

/-- Witness of the amended C2 on a session with a load, a creation, an update and
a save of id `0`. -/
theorem ids_unique_and_below_nextId_witness :
    (1000 + (session.length : Int) ≤ 2 ^ 53 ∧
      ∀ L, Op.load L ∈ session → (ids L).Nodup ∧ ∀ i ∈ ids L, i + session.length < 2 ^ 53) ∧
      (ids (run Store.init session).products).Nodup ∧
      ∀ i ∈ ids (run Store.init session).products, i < (run Store.init session).nextId :=
  have h : ∀ L, Op.load L ∈ session →
      (ids L).Nodup ∧ ∀ i ∈ ids L, i + session.length < 2 ^ 53 := by
    intro L hL
    simp only [session, List.mem_cons, Op.load.injEq, List.mem_singleton, reduceCtorEq,
      or_false, List.not_mem_nil] at hL
    subst hL
    decide
  ⟨⟨by decide, h⟩, ids_unique_and_below_nextId session (by decide) h⟩

/-- Counterexample to C2. The ids of the loaded list, the single id `2 ^ 53`, are
pairwise distinct. The load sets `nextId` to `2 ^ 53`, because `2 ^ 53 + 1` rounds
back; one creation then stores a second record with id `2 ^ 53`: the two records
share their id, and that id is not below `nextId`. -/
theorem ids_unique_counterexample :
    (ids [hugeId]).Nodup ∧
      (run Store.init overflow).products.map Product.id
        = [some 9007199254740992, some 9007199254740992] ∧
      (run Store.init overflow).nextId = 9007199254740992 ∧
      ¬ (ids (run Store.init overflow).products).Nodup ∧
      ¬ ((9007199254740992 : Int) < (run Store.init overflow).nextId) := by
  decide

/-! ## Theorems: derivation pipeline -/

/-- The method `includes` decides the contiguous-sublist relation on the characters. -/
theorem includes_iff (s q : String) : includes s q = true ↔ q.data <:+: s.data := by
  unfold includes
  rw [List.any_eq_true, List.infix_iff_prefix_suffix]
  constructor
  · rintro ⟨t, ht, hp⟩
    exact ⟨t, List.isPrefixOf_iff_prefix.mp hp, (List.mem_tails t s.data).mp ht⟩
  · rintro ⟨t, hp, ht⟩
    exact ⟨t, (List.mem_tails t s.data).mpr ht, List.isPrefixOf_iff_prefix.mpr hp⟩

/-- The same fact as an equation of booleans. -/
theorem includes_eq_decide (s q : String) : includes s q = decide (q.data <:+: s.data) := by
  by_cases h : q.data <:+: s.data
  · simp [h, (includes_iff s q).mpr h]
  · have : includes s q = false := by
      cases hc : includes s q
      · rfl
      · exact absurd ((includes_iff s q).mp hc) h
    simp [h, this]

/-- C5. For every list `L` and query `q`, `filtered` is `L` filtered, in order, by
the test that the lower-cased query is a contiguous part of the lower-cased name;
it is a sublist of `L`; and whether a record is kept is a function of its name
alone, whatever its other fields. -/
theorem filtered_is_name_substring_filter {ν : Type} (js : Builtins ν)
    (L : List (Product ν)) (q : String) :
    filtered js L q =
        L.filter (fun p => decide ((js.toLowerCase q).data <:+: (js.toLowerCase p.name).data)) ∧
      List.Sublist (filtered js L q) L ∧
      ∃ keep : String → Bool, ∀ M : List (Product ν),
        filtered js M q = M.filter (fun p => keep p.name) := by
  have key : ∀ M : List (Product ν), filtered js M q =
      M.filter (fun p => decide ((js.toLowerCase q).data <:+: (js.toLowerCase p.name).data)) := by
    intro M
    unfold filtered
    by_cases hq : js.toLowerCase q = ""
    · simp only [hq, if_true]
      symm
      rw [List.filter_eq_self]
      intro p _
      simp
    · simp only [hq, if_false]
      congr 1
      funext p
      exact includes_eq_decide _ _
  refine ⟨key L, ?_, ⟨fun n => decide ((js.toLowerCase q).data <:+: (js.toLowerCase n).data), key⟩⟩
  rw [key L]
  exact List.filter_sublist L

/-- C6 (amended). For every list `L`, the empty query yields `L` in full (the one
fact used about the built-in is that the empty string lower-cases to itself);
every other query, one made of white space included, is not trimmed and keeps the
records whose lower-cased name includes it. -/
theorem filtered_empty_query {ν : Type} (js : Builtins ν) (L : List (Product ν))
    (h : js.toLowerCase "" = "") :
    filtered js L "" = L ∧
      ∀ q : String, js.toLowerCase q ≠ "" →
        filtered js L q =
          L.filter (fun p => includes (js.toLowerCase p.name) (js.toLowerCase q)) := by
  refine ⟨by simp [filtered, h], ?_⟩
  intro q hq
  simp [filtered, hq]

/-- Witness of the amended C6 with the ASCII built-ins. -/
theorem filtered_empty_query_witness :
    ascii.toLowerCase "" = "" ∧ filtered ascii [redShirt] "" = [redShirt] :=
  ⟨by decide, (filtered_empty_query ascii [redShirt] (by decide)).1⟩

/-- Counterexample to C6: the query of three spaces is not trimmed, it is searched
for in the name `Red Shirt` and nothing is kept. -/
theorem filtered_blank_query_counterexample :
    filtered ascii [redShirt] "   " = [] ∧ filtered ascii [redShirt] "   " ≠ [redShirt] := by
  decide

/-- The ceiling of `n / 8` as a quotient of naturals. -/
theorem pageCount_eq_div {ν : Type} (F : List (Product ν)) :
    pageCount F = ((F.length + 7) / 8 : Nat) := by
  unfold pageCount perPage
  rw [Int.ceil_eq_iff]
  obtain ⟨k, hk⟩ : ∃ k : Nat, k = (F.length + 7) / 8 := ⟨_, rfl⟩
  rw [← hk]
  have h8 : (0 : ℚ) < 8 := by norm_num
  have hlo : k * 8 < F.length + 8 := by omega
  have hhi : F.length ≤ k * 8 := by omega
  have hlo2 : ((k * 8 : Nat) : ℚ) < ((F.length + 8 : Nat) : ℚ) := by exact_mod_cast hlo
  have hhi2 : ((F.length : Nat) : ℚ) ≤ ((k * 8 : Nat) : ℚ) := by exact_mod_cast hhi
  push_cast at hlo2 hhi2 ⊢
  constructor
  · rw [lt_div_iff₀ h8]
    linarith
  · rw [div_le_iff₀ h8]
    linarith

/-- C7 (amended). For a filtered list of `n` products `pageCount` is the ceiling
of `n / 8`, the least integer `k` with `n ≤ 8 * k`; it is at least `1` exactly
when the list is not empty; and it is `3` when `n = 20`. -/
theorem pageCount_is_ceiling {ν : Type} (F : List (Product ν)) :
    ((F.length : Int) ≤ 8 * pageCount F ∧ 8 * (pageCount F - 1) < (F.length : Int)) ∧
      (1 ≤ pageCount F ↔ F ≠ []) ∧
      (F.length = 20 → pageCount F = 3) := by
  rw [pageCount_eq_div]
  have hl : F ≠ [] ↔ 0 < F.length := by
    rw [List.length_pos]
  rw [hl]
  refine ⟨⟨?_, ?_⟩, ?_, ?_⟩ <;> omega

/-- Witness of the amended C7: twenty items make three pages. -/
theorem pageCount_is_ceiling_witness :
    twenty.length = 20 ∧ pageCount twenty = 3 :=
  ⟨by decide, (pageCount_is_ceiling twenty).2.2 (by decide)⟩

/-- Counterexample to C7: on the empty filtered list `pageCount` is `0`, not `1`. -/
theorem pageCount_empty_counterexample :
    pageCount ([] : List (Product (Option Int))) = 0 ∧
      ¬ (1 ≤ pageCount ([] : List (Product (Option Int)))) := by
  rw [pageCount_eq_div]
  decide

/-- On a non-negative argument the relative index is the clamped argument. -/
theorem relIndex_natCast (len k : Nat) : relIndex len (k : Int) = min k len := by
  unfold relIndex
  have : ¬ ((k : Int) < 0) := by omega
  simp [this]

/-- The window of page `k + 1` is the chunk of 8 items after the first `k * 8`. -/
theorem visible_succ {ν : Type} (F : List (Product ν)) (k : Nat) :
    visible F ((k : Int) + 1) = (F.drop (k * 8)).take 8 := by
  unfold visible slice perPage
  have e1 : ((k : Int) + 1 - 1) * ((8 : Nat) : Int) = ((k * 8 : Nat) : Int) := by push_cast; ring
  have e2 : ((k : Int) + 1) * ((8 : Nat) : Int) = (((k + 1) * 8 : Nat) : Int) := by push_cast; ring
  rw [e1, e2, relIndex_natCast, relIndex_natCast]
  simp only []
  rcases Nat.lt_or_ge (k * 8) F.length with h | h
  · rw [Nat.min_eq_left (Nat.le_of_lt h)]
    rw [List.take_eq_take]
    simp only [List.length_drop]
    omega
  · rw [Nat.min_eq_right h, List.drop_eq_nil_of_le (le_refl _), List.drop_eq_nil_of_le h]
    simp

/-- The first `m` chunks of 8 items, concatenated, are the first `m * 8` items. -/
theorem flatten_chunks {α : Type} (F : List α) (m : Nat) :
    ((List.range m).map (fun k => (F.drop (k * 8)).take 8)).flatten = F.take (m * 8) := by
  induction m with
  | zero => simp
  | succ m ih =>
    rw [List.range_succ, List.map_append, List.flatten_append, ih]
    simp only [List.map_cons, List.map_nil, List.flatten_cons, List.flatten_nil, List.append_nil]
    rw [Nat.succ_mul, List.take_add]

/-- C8. For a non-empty filtered list `F` of `n` products and a page `p` with
`1 ≤ p ≤ pageCount F`, the window is `F` cut to the indices
`[(p - 1) * 8, min (p * 8) n)`, it is not empty and holds at most 8 items; the
windows of pages `1 .. pageCount F` concatenated in order give `F` back; and every
index of `F` lies in the window of exactly one page. -/
theorem visible_window {ν : Type} (F : List (Product ν)) (p : Int)
    (hF : F ≠ []) (h1 : 1 ≤ p) (hp : p ≤ pageCount F) :
    visible F p = (F.take (min (p.toNat * 8) F.length)).drop ((p.toNat - 1) * 8) ∧
      (visible F p).length = min (p.toNat * 8) F.length - (p.toNat - 1) * 8 ∧
      visible F p ≠ [] ∧ (visible F p).length ≤ 8 ∧
      ((List.range (pageCount F).toNat).map (fun k : Nat => visible F ((k : Int) + 1))).flatten
        = F ∧
      ∀ i : Nat, i < F.length →
        ∃! k : Nat, 1 ≤ k ∧ (k : Int) ≤ pageCount F ∧
          (k - 1) * 8 ≤ i ∧ i < min (k * 8) F.length := by
  have hn : 0 < F.length := List.length_pos.mpr hF
  rw [pageCount_eq_div] at hp ⊢
  obtain ⟨k, rfl⟩ : ∃ k : Nat, p = (k : Int) + 1 := ⟨(p - 1).toNat, by omega⟩
  have hk : k + 1 ≤ (F.length + 7) / 8 := by omega
  have hk8 : k * 8 < F.length := by omega
  have htn : ((k : Int) + 1).toNat = k + 1 := by omega
  have hlen : (visible F ((k : Int) + 1)).length = min ((k + 1) * 8) F.length - k * 8 := by
    rw [visible_succ, List.length_take, List.length_drop]; omega
  rw [htn]
  refine ⟨?_, ?_, ?_, ?_, ?_, ?_⟩
  · rw [visible_succ, List.take_drop, Nat.add_sub_cancel]
    congr 1
    rw [List.take_eq_take]
    have : k * 8 + 8 = (k + 1) * 8 := by ring
    rw [this]
    simp
  · simpa using hlen
  · intro h
    rw [h] at hlen
    simp at hlen
    omega
  · rw [hlen]; omega
  · have : (fun k : Nat => visible F ((k : Int) + 1)) = fun k => (F.drop (k * 8)).take 8 := by
      funext j; exact visible_succ F j
    rw [this, Int.toNat_ofNat, flatten_chunks]
    apply List.take_of_length_le
    omega
  · intro i hi
    refine ⟨i / 8 + 1, ⟨by omega, by omega, by omega, by omega⟩, ?_⟩
    rintro j ⟨hj1, _, hj3, hj4⟩
    omega

/-- Witness of C8: page 3 of twenty items shows the items `[16, 20)`. -/
theorem visible_window_witness :
    (twenty ≠ [] ∧ (1 : Int) ≤ 3 ∧ (3 : Int) ≤ pageCount twenty) ∧
      visible twenty 3 = (twenty.take (min 24 twenty.length)).drop 16 ∧
      (visible twenty 3).length = 4 :=
  have h3 : (3 : Int) ≤ pageCount twenty := by rw [pageCount_eq_div]; decide
  have hw := visible_window twenty 3 (by decide) (by decide) h3
  ⟨⟨by decide, by decide, h3⟩, hw.1, by decide⟩

/-! ## Theorems: form and save callback -/

/-- The general part of the behaviour of `submit`: when the callback is called,
which errors are recorded, and which record is handed over. -/
theorem submit_general {ν : Type} [DecidableEq ν] (js : Builtins ν) (f : FormState ν) :
    ((submit js f).saved.isSome = true ↔
        js.trim f.name ≠ "" ∧
          (match f.price with
            | Input.num n => js.isNaN n = false
            | Input.str s => s ≠ "" ∧ js.isNaN (js.Number s) = false) ∧
          js.trim f.category ≠ "") ∧
      (∀ (k : Field) (msg : String), (k, msg) ∈ (submit js f).err ↔
        (k = Field.name ∧ msg = "Required" ∧ js.trim f.name = "") ∨
        (k = Field.price ∧ msg = "Invalid" ∧
          (match f.price with
            | Input.num n => js.isNaN n = true
            | Input.str s => s = "" ∨ js.isNaN (js.Number s) = true)) ∨
        (k = Field.category ∧ msg = "Required" ∧ js.trim f.category = "")) ∧
      ((submit js f).err = [] ↔ (submit js f).saved.isSome = true) ∧
      (∀ r : Product ν, (submit js f).saved = some r →
        r = { id := f.id, name := f.name,
              price := (match f.price with
                | Input.num n => n
                | Input.str s => js.Number s),
              category := f.category,
              stock := (match f.stock with
                | Input.num n => n
                | Input.str s => js.Number s),
              description := f.description }) := by
  obtain ⟨id, name, price, category, stock, description⟩ := f
  cases price with
  | num n =>
    cases stock <;>
    by_cases hn : js.trim name = "" <;>
    by_cases hp : js.isNaN n = true <;>
    by_cases hc : js.trim category = "" <;>
    simp [submit, validate, priceInvalid, toNumber, hn, hp, hc]
  | str s =>
    cases stock <;>
    by_cases hn : js.trim name = "" <;>
    by_cases he : s = "" <;>
    by_cases hp : js.isNaN (js.Number s) = true <;>
    by_cases hc : js.trim category = "" <;>
    simp [submit, validate, priceInvalid, toNumber, hn, he, hp, hc]

/-- C9. For every staged state, `submit` calls the save callback exactly when the
trimmed name is not empty, the price is not the empty string and `Number` of it is
not `NaN` (a staged number is its own `Number`), and the trimmed category is not
empty. The recorded errors are exactly `name = Required`, `price = Invalid`,
`category = Required` on the failing fields, never on `stock` or `description`,
and the callback is called exactly when none is recorded. The record it receives
is the staged record with `price` and `stock` replaced by `Number` of them and
every other field unchanged. The last three parts are the examples of the
specification: an empty name, the price `abc`, and the valid state `X`, `5`, `Y`,
each under the value the built-ins take on these texts. -/
theorem submit_calls_save_iff_valid {ν : Type} [DecidableEq ν] (js : Builtins ν)
    (f : FormState ν) :
    ((submit js f).saved.isSome = true ↔
        js.trim f.name ≠ "" ∧
          (match f.price with
            | Input.num n => js.isNaN n = false
            | Input.str s => s ≠ "" ∧ js.isNaN (js.Number s) = false) ∧
          js.trim f.category ≠ "") ∧
      (∀ (k : Field) (msg : String), (k, msg) ∈ (submit js f).err ↔
        (k = Field.name ∧ msg = "Required" ∧ js.trim f.name = "") ∨
        (k = Field.price ∧ msg = "Invalid" ∧
          (match f.price with
            | Input.num n => js.isNaN n = true
            | Input.str s => s = "" ∨ js.isNaN (js.Number s) = true)) ∨
        (k = Field.category ∧ msg = "Required" ∧ js.trim f.category = "")) ∧
      (∀ msg : String, (Field.stock, msg) ∉ (submit js f).err ∧
        (Field.description, msg) ∉ (submit js f).err) ∧
      ((submit js f).err = [] ↔ (submit js f).saved.isSome = true) ∧
      (∀ r : Product ν, (submit js f).saved = some r →
        r = { id := f.id, name := f.name,
              price := (match f.price with
                | Input.num n => n
                | Input.str s => js.Number s),
              category := f.category,
              stock := (match f.stock with
                | Input.num n => n
                | Input.str s => js.Number s),
              description := f.description }) ∧
      (js.trim "" = "" → f.name = "" →
        (Field.name, "Required") ∈ (submit js f).err ∧ (submit js f).saved = none) ∧
      (js.isNaN (js.Number "abc") = true → f.price = Input.str "abc" →
        (Field.price, "Invalid") ∈ (submit js f).err ∧ (submit js f).saved = none) ∧
      (js.trim "X" ≠ "" → js.trim "Y" ≠ "" → js.isNaN (js.Number "5") = false →
        f.name = "X" → f.price = Input.str "5" → f.category = "Y" →
        (submit js f).err = [] ∧
          ∃ r : Product ν, (submit js f).saved = some r ∧ r.price = js.Number "5" ∧
            r.name = "X" ∧ r.category = "Y" ∧ r.id = f.id) := by
  obtain ⟨h1, h2, h3, h4⟩ := submit_general js f
  have hnone : ∀ {o : Option (Product ν)}, ¬ (o.isSome = true) → o = none := by
    intro o ho
    cases o with
    | none => rfl
    | some r => exact absurd rfl ho
  refine ⟨h1, h2, ?_, h3, h4, ?_, ?_, ?_⟩
  · intro msg
    constructor
    · intro h
      rcases (h2 _ _).mp h with ⟨hk, _⟩ | ⟨hk, _⟩ | ⟨hk, _⟩ <;> exact absurd hk (by decide)
    · intro h
      rcases (h2 _ _).mp h with ⟨hk, _⟩ | ⟨hk, _⟩ | ⟨hk, _⟩ <;> exact absurd hk (by decide)
  · intro ht hname
    refine ⟨(h2 _ _).mpr (Or.inl ⟨rfl, rfl, by rw [hname]; exact ht⟩), hnone ?_⟩
    intro hs
    exact (h1.mp hs).1 (by rw [hname]; exact ht)
  · intro hnan hprice
    rw [hprice] at h1 h2
    refine ⟨(h2 _ _).mpr (Or.inr (Or.inl ⟨rfl, rfl, Or.inr hnan⟩)), hnone ?_⟩
    intro hs
    have := (h1.mp hs).2.1.2
    rw [hnan] at this
    exact absurd this (by decide)
  · intro hx hy h5 hname hprice hcat
    have hs : (submit js f).saved.isSome = true := by
      apply h1.mpr
      rw [hname, hprice, hcat]
      exact ⟨hx, ⟨by decide, h5⟩, hy⟩
    refine ⟨h3.mpr hs, ?_⟩
    obtain ⟨r, hr⟩ := Option.isSome_iff_exists.mp hs
    have e := h4 r hr
    rw [hprice, hname, hcat] at e
    exact ⟨r, hr, by rw [e], by rw [e], by rw [e], by rw [e]⟩

/-- Witness of C9: the three examples of the specification, evaluated. -/
theorem submit_calls_save_iff_valid_witness :
    ((Field.name, "Required") ∈ (submit ascii emptyName).err ∧
        (submit ascii emptyName).saved = none) ∧
      ((Field.price, "Invalid") ∈ (submit ascii badPrice).err ∧
        (submit ascii badPrice).saved = none) ∧
      (submit ascii validXY).err = [] ∧
      (submit ascii validXY).saved =
        some { id := none, name := "X", price := some 5, category := "Y",
               stock := some 0, description := "" } :=
  ⟨(submit_calls_save_iff_valid ascii emptyName).2.2.2.2.2.1 (by decide) rfl,
   (submit_calls_save_iff_valid ascii badPrice).2.2.2.2.2.2.1 (by decide) rfl,
   ((submit_calls_save_iff_valid ascii validXY).2.2.2.2.2.2.2
      (by decide) (by decide) (by decide) rfl rfl rfl).1,
   by decide⟩

/-- The update branch, taken for every id other than `0`: the counter and the
length are unchanged and each index holds the old record, or the submitted one
when the ids agree. -/
theorem saveProduct_truthy {ν : Type} [DecidableEq ν] (s : Store ν) (f : Product ν)
    (h : truthy f.id = true) :
    (saveProduct s f).nextId = s.nextId ∧
      (saveProduct s f).products.length = s.products.length ∧
      ∀ (k : Nat) (x : Product ν), s.products[k]? = some x →
        (saveProduct s f).products[k]? =
          some (if x.id = f.id then { f with id := x.id } else x) := by
  have e : saveProduct s f =
      { s with products := s.products.map (fun x => if x.id = f.id then spread x f else x) } := by
    simp [saveProduct, h]
  rw [e]
  refine ⟨rfl, by simp, ?_⟩
  intro k x hx
  show (s.products.map (fun x => if x.id = f.id then spread x f else x))[k]? = _
  rw [List.getElem?_map, hx]
  by_cases hid : x.id = f.id
  · simp [hid, spread]
  · simp [hid]

/-- An id other than `0` that no stored record has: the store is unchanged. -/
theorem saveProduct_truthy_absent {ν : Type} [DecidableEq ν] (s : Store ν) (f : Product ν)
    (h : truthy f.id = true) (habs : ∀ x ∈ s.products, x.id ≠ f.id) :
    saveProduct s f = s := by
  simp only [saveProduct, h, if_true]
  have : s.products.map (fun x => if x.id = f.id then spread x f else x) = s.products := by
    conv_rhs => rw [← List.map_id s.products]
    apply List.map_congr_left
    intro x hx
    simp [habs x hx]
  rw [this]

/-- The create branch, taken when the id is absent or `0`: the record is stored in
front under `nextId`, which is then incremented as a double. -/
theorem saveProduct_falsy {ν : Type} [DecidableEq ν] (s : Store ν) (f : Product ν)
    (h : truthy f.id = false) :
    saveProduct s f =
      { products := { f with id := some s.nextId } :: s.products,
        nextId := toDouble (s.nextId + 1) } := by
  simp [saveProduct, h]

/-- A save keeps every stored id, and the only id it can add is the counter. -/
theorem ids_saveProduct {ν : Type} [DecidableEq ν] (s : Store ν) (f : Product ν) :
    ids (saveProduct s f).products = ids s.products ∨
      ids (saveProduct s f).products = s.nextId :: ids s.products := by
  cases h : truthy f.id with
  | true =>
    left
    simp only [saveProduct, h, if_true]
    exact ids_map_update f s.products
  | false =>
    right
    rw [saveProduct_falsy s f h]
    exact ids_cons_some _ _ _ rfl

/-- A save keeps the counter at least `1`. -/
theorem nextId_saveProduct {ν : Type} [DecidableEq ν] (s : Store ν) (f : Product ν)
    (h : 1 ≤ s.nextId) : 1 ≤ (saveProduct s f).nextId := by
  cases ht : truthy f.id with
  | true => rw [(saveProduct_truthy s f ht).1]; exact h
  | false =>
    rw [saveProduct_falsy s f ht]
    exact toDouble_pos _ (by omega)

/-- Retyping a field never changes the staged id. -/
theorem setField_id {ν : Type} (f : FormState ν) (key : Field) (value : String) :
    (setField f key value).id = f.id := by
  cases key <;> rfl

/-- The record handed to the callback carries the staged id. -/
theorem submit_id {ν : Type} [DecidableEq ν] (js : Builtins ν) (f : FormState ν)
    (r : Product ν) (h : (submit js f).saved = some r) : r.id = f.id := by
  unfold submit at h
  simp only [] at h
  split at h
  · cases h; rfl
  · cases h

/-- The page invariant holds at start. -/
theorem PageInv_init {ν : Type} : PageInv (Page.init : Page ν) := by
  refine ⟨?_, ?_, ?_⟩
  · show (1 : Int) ≤ 1000
    norm_num
  · intro _
    simp [Page.init, Store.init, ids]
  · intro f hf
    simp [Page.init] at hf

/-- Every handler run preserves the page invariant. -/
theorem PageInv_step {ν : Type} [DecidableEq ν] (js : Builtins ν) (s : Page ν)
    (e : Event ν) (h : PageInv s) : PageInv (Page.step js s e) := by
  obtain ⟨hA, hB, hC⟩ := h
  cases e with
  | fetched data =>
    cases hf : s.fetched with
    | true => simp only [Page.step, hf, if_true]; exact ⟨hA, hB, hC⟩
    | false =>
      simp only [Page.step, hf]
      refine ⟨?_, ?_, ?_⟩
      · exact toDouble_pos _ (by have := maxId_nonneg data; omega)
      · intro hcon
        simp at hcon
      · intro f hform hid
        exact absurd (hC f hform hid) (hB hf)
  | add =>
    cases hform : s.form with
    | some g => simp only [Page.step, hform]; exact ⟨hA, hB, hC⟩
    | none =>
      simp only [Page.step, hform]
      refine ⟨hA, hB, ?_⟩
      intro f hf hid
      have e : ProductForm.initial js none = f := Option.some.inj hf
      rw [← e] at hid
      simp [ProductForm.initial] at hid
  | edit k =>
    cases hform : s.form with
    | some g => simp only [Page.step, hform]; exact ⟨hA, hB, hC⟩
    | none =>
      cases hk : s.store.products[k]? with
      | none => simp only [Page.step, hform, hk]; exact ⟨hA, hB, hC⟩
      | some p =>
        simp only [Page.step, hform, hk]
        refine ⟨hA, hB, ?_⟩
        intro f hf hid
        have e : ProductForm.initial js (some p) = f := Option.some.inj hf
        rw [← e] at hid
        have hp : p.id = some 0 := hid
        exact (mem_ids _ _).mpr ⟨p, List.getElem?_mem hk, hp⟩
  | change key value =>
    refine ⟨hA, hB, ?_⟩
    intro f hf hid
    simp only [Page.step] at hf
    cases hform : s.form with
    | none => rw [hform] at hf; simp at hf
    | some g =>
      rw [hform] at hf
      have e : setField g key value = f := Option.some.inj hf
      rw [← e, setField_id] at hid
      exact hC g hform hid
  | submit =>
    cases hform : s.form with
    | none => simp only [Page.step, hform]; exact ⟨hA, hB, hC⟩
    | some g =>
      cases hs : (submit js g).saved with
      | none => simp only [Page.step, hform, hs]; exact ⟨hA, hB, hC⟩
      | some r =>
        simp only [Page.step, hform, hs]
        refine ⟨nextId_saveProduct _ _ hA, ?_, ?_⟩
        · intro hf hmem
          rcases ids_saveProduct s.store r with e | e
          · rw [e] at hmem; exact hB hf hmem
          · rw [e, List.mem_cons] at hmem
            rcases hmem with h0 | h0
            · omega
            · exact hB hf h0
        · intro f hf
          simp at hf
  | close =>
    refine ⟨hA, hB, ?_⟩
    intro f hf
    simp [Page.step] at hf

/-- The page invariant holds after every sequence of handler runs. -/
theorem PageInv_run {ν : Type} [DecidableEq ν] (js : Builtins ν) (events : List (Event ν)) :
    ∀ s : Page ν, PageInv s → PageInv (Page.run js s events) := by
  induction events with
  | nil => intro s hs; exact hs
  | cons e events ih =>
    intro s hs
    exact ih _ (PageInv_step js s e hs)

/-- C3, the code at the failing input: saving an edit of the stored product whose
id is `0` returns a list of length 2, the stored record keeps its old name and a
copy with the fresh id `1` is put in front. -/
theorem saveProduct_zero_id_update :
    (saveProduct (load Store.init [capZero]) hatZero).products
        = [{ hatZero with id := some 1 }, capZero] ∧
      (saveProduct (load Store.init [capZero]) hatZero).products.length = 2 := by
  decide

/-- C4. A record that carries an id other than `0` which no stored product has
leaves the store, and so the product list, identical, whatever the list and the
record. The id `0` is never such an id when `saveProduct` is called: after every
sequence of handler runs, if the mounted form hands a record with id `i` to
`saveProduct` and no stored product has the id `i`, then the store is left
identical. -/
theorem absent_id_save_is_noop {ν : Type} [DecidableEq ν] (js : Builtins ν) :
    (∀ (s : Store ν) (f : Product ν) (i : Int),
        f.id = some i → i ≠ 0 → i ∉ ids s.products →
        saveProduct s f = s ∧ (saveProduct s f).products = s.products) ∧
      (∀ (events : List (Event ν)) (f : FormState ν) (r : Product ν) (i : Int),
        (Page.run js Page.init events).form = some f →
        (submit js f).saved = some r → r.id = some i →
        i ∉ ids (Page.run js Page.init events).store.products →
        saveProduct (Page.run js Page.init events).store r
            = (Page.run js Page.init events).store ∧
          (Page.run js (Page.run js Page.init events) [Event.submit]).store.products
            = (Page.run js Page.init events).store.products) := by
  have key : ∀ (s : Store ν) (f : Product ν) (i : Int),
      f.id = some i → i ≠ 0 → i ∉ ids s.products → saveProduct s f = s := by
    intro s f i hid h0 habs
    apply saveProduct_truthy_absent
    · simp [hid, truthy, h0]
    · intro x hx hxf
      exact habs ((mem_ids _ _).mpr ⟨x, hx, hxf.trans hid⟩)
  refine ⟨fun s f i hid h0 habs => ⟨key s f i hid h0 habs, by rw [key s f i hid h0 habs]⟩, ?_⟩
  intro events f r i hform hsaved hid habs
  obtain ⟨_, _, hC⟩ := PageInv_run js events Page.init PageInv_init
  have hfid : f.id = some i := (submit_id js f r hsaved).symm.trans hid
  have h0 : i ≠ 0 := by
    rintro rfl
    exact habs (hC f hform hfid)
  have e := key _ r i hid h0 habs
  refine ⟨e, ?_⟩
  show (Page.step js (Page.run js Page.init events) Event.submit).store.products = _
  simp only [Page.step, hform, hsaved, e]

/-- Witness of C4: the edit form of a product added before the fetch is submitted
after the fetch has replaced the list; its id `1000` is no longer stored and the
store is left identical. -/
theorem absent_id_save_is_noop_witness :
    ((Page.run ascii Page.init staleEdit).form = some staleForm ∧
      (submit ascii staleForm).saved = some staleMug ∧ staleMug.id = some 1000 ∧
      (1000 : Int) ∉ ids (Page.run ascii Page.init staleEdit).store.products) ∧
      saveProduct (Page.run ascii Page.init staleEdit).store staleMug
        = (Page.run ascii Page.init staleEdit).store ∧
      (Page.run ascii (Page.run ascii Page.init staleEdit) [Event.submit]).store.products
        = [redShirt] :=
  have h := (absent_id_save_is_noop ascii).2 staleEdit staleForm staleMug 1000
    (by decide) (by decide) rfl (by decide)
  ⟨⟨by decide, by decide, rfl, by decide⟩, h.1, by decide⟩

/-- C10, the code at the failing input: the record staged from the stored product
with id `0`, opened through its Edit action and submitted, has an id, yet the list
grows from 1 to 2 records. -/
theorem edit_zero_id_adds_record :
    (submit ascii capEdit).saved = some hatZero ∧
      (load Store.init [capZero]).products.length = 1 ∧
      (saveProduct (load Store.init [capZero]) hatZero).products.length = 2 := by
  decide

end App
